import Mathlib

/-!
Verification of the Clarity file-explorer frontend.

The definitions below are a shallow embedding of the TypeScript renderer
code (the `FileExplorerAPI` class in `lib/api.ts` and the `FileExplorer`,
`BreadcrumbBar` and `FileList` React components).  JavaScript strings are
modelled through their character lists; JavaScript `Date` values are
modelled as epoch milliseconds (`Nat`), with the current time passed in as
an explicit `now` parameter; `fetch` outcomes are an explicit parameter
(`FetchOutcome`); React state is an explicit `ExplorerState` record and
handlers return the new state together with the list of observable effects
(backend requests, toasts, shell-open calls).
-/

namespace Clarity

/-- Models the frontend path encoding `p.replace(/\//g, '|')` used by
`FileExplorerAPI.renameItem` and `FileExplorerAPI.createFolder`: every
slash character is replaced by the pipe delimiter. -/
def encodePath (s : String) : String :=
  String.mk (s.data.map (fun c => if c = '/' then '|' else c))

/-- Models the frontend path decoding `path_abs.replace(/\|/g, '/')` used by
`convertTreeNodeToFileSystemItem` and `loadFolderFromTree`: every pipe
delimiter is replaced by a slash. -/
def decodePath (s : String) : String :=
  String.mk (s.data.map (fun c => if c = '|' then '/' else c))

/-- Character-level round trip for the codec: decoding after encoding is the
identity on character lists that contain no pipe character. -/
theorem decode_encode_chars (l : List Char) (h : ∀ c ∈ l, c ≠ '|') :
    (l.map (fun c => if c = '/' then '|' else c)).map
      (fun c => if c = '|' then '/' else c) = l := by
  induction l with
  | nil => rfl
  | cons c cs ih =>
    have hc : c ≠ '|' := h c (List.mem_cons_self c cs)
    have ihcs : (cs.map (fun c => if c = '/' then '|' else c)).map
        (fun c => if c = '|' then '/' else c) = cs :=
      ih (fun x hx => h x (List.mem_cons_of_mem c hx))
    simp only [List.map_cons, ihcs]
    by_cases hcs : c = '/'
    · simp [hcs]
    · simp [hcs, hc]

/-- Round trip for the codec on strings without the delimiter character. -/
theorem decodePath_encodePath (p : String) (h : ∀ c ∈ p.data, c ≠ '|') :
    decodePath (encodePath p) = p := by
  show String.mk ((p.data.map _).map _) = p
  rw [decode_encode_chars p.data h]

/-- Models JavaScript `s.split(sep)` for a single-character separator, at the
character-list level (as used by `path.split('/')`, `path.split('.')` in
`FileExplorerAPI.searchFiles`). -/
def splitChar (sep : Char) : List Char → List (List Char)
  | [] => [[]]
  | c :: cs =>
    match splitChar sep cs with
    | [] => [[]]
    | h :: t => if c = sep then [] :: h :: t else (c :: h) :: t

/-- Models JavaScript `arr.pop()` on the result of a split: the last chunk
(the empty chunk for an empty array, which `split` never produces). -/
def jsLast : List (List Char) → List Char
  | [] => []
  | [a] => a
  | _ :: b :: t => jsLast (b :: t)

/-- The characters strictly after the last occurrence of `sep`, or `none`
when `sep` does not occur.  This is the independent reading of the words
"the text after the last '.'". -/
def afterLastSep (sep : Char) : List Char → Option (List Char)
  | [] => none
  | c :: cs =>
    match afterLastSep sep cs with
    | some t => some t
    | none => if c = sep then some cs else none

/-- The spec wording "the text after the last '.' of the stored path";
empty when the path has no dot. -/
def textAfterLastDot (p : String) : String :=
  match afterLastSep '.' p.data with
  | some t => String.mk t
  | none => ""

theorem splitChar_ne_nil (sep : Char) (l : List Char) : splitChar sep l ≠ [] := by
  cases l with
  | nil => simp [splitChar]
  | cons c cs =>
    unfold splitChar
    cases splitChar sep cs with
    | nil => simp
    | cons h t =>
      by_cases hc : c = sep <;> simp [hc]

theorem afterLastSep_eq_none_iff (sep : Char) (l : List Char) :
    afterLastSep sep l = none ↔ sep ∉ l := by
  induction l with
  | nil => simp [afterLastSep]
  | cons c cs ih =>
    unfold afterLastSep
    cases hcs : afterLastSep sep cs with
    | some t =>
      have hmem : sep ∈ cs := by
        by_contra hn
        rw [ih.mpr hn] at hcs
        cases hcs
      simp [List.mem_cons, hmem]
    | none =>
      have hnot : sep ∉ cs := ih.mp hcs
      by_cases hc : c = sep
      · simp [hc]
      · have hne : sep ≠ c := fun e => hc e.symm
        simp [hc, List.mem_cons, hnot, hne]

theorem splitChar_of_not_mem (sep : Char) (l : List Char) (h : sep ∉ l) :
    splitChar sep l = [l] := by
  induction l with
  | nil => rfl
  | cons c cs ih =>
    have hc : c ≠ sep := fun e => h (e ▸ List.mem_cons_self c cs)
    have hcs : sep ∉ cs := fun m => h (List.mem_cons_of_mem c m)
    unfold splitChar
    rw [ih hcs]
    simp [hc]

theorem two_le_length_splitChar (sep : Char) (l : List Char) (h : sep ∈ l) :
    2 ≤ (splitChar sep l).length := by
  induction l with
  | nil => cases h
  | cons c cs ih =>
    unfold splitChar
    cases hr : splitChar sep cs with
    | nil => exact absurd hr (splitChar_ne_nil sep cs)
    | cons h0 t =>
      by_cases hc : c = sep
      · simp [hc]
      · have hmem : sep ∈ cs := by
          rcases List.mem_cons.mp h with h1 | h1
          · exact absurd h1.symm hc
          · exact h1
        have := ih hmem
        rw [hr] at this
        simp only [hc, if_false]
        simpa using this

/-- Key correspondence: the last chunk of a character-level split is the text
after the last separator when the separator occurs, and the whole list
otherwise. -/
theorem jsLast_splitChar (sep : Char) (l : List Char) :
    jsLast (splitChar sep l) = (afterLastSep sep l).getD l := by
  induction l with
  | nil => rfl
  | cons c cs ih =>
    cases hr : splitChar sep cs with
    | nil => exact absurd hr (splitChar_ne_nil sep cs)
    | cons h0 t =>
      have hred : splitChar sep (c :: cs) =
          if c = sep then [] :: h0 :: t else (c :: h0) :: t := by
        unfold splitChar
        rw [hr]
      have hafterred : afterLastSep sep (c :: cs) =
          match afterLastSep sep cs with
          | some u => some u
          | none => if c = sep then some cs else none := rfl
      rw [hred, hafterred]
      by_cases hc : c = sep
      · rw [if_pos hc]
        have step : jsLast ([] :: h0 :: t) = jsLast (h0 :: t) := rfl
        rw [step, ← hr, ih]
        cases hcs : afterLastSep sep cs with
        | some u => rfl
        | none => simp [hc]
      · rw [if_neg hc]
        cases ht : t with
        | nil =>
          subst ht
          have hnot : sep ∉ cs := by
            by_contra hmem
            have := two_le_length_splitChar sep cs hmem
            rw [hr] at this
            simp at this
          have hsingle : splitChar sep cs = [cs] := splitChar_of_not_mem sep cs hnot
          rw [hr] at hsingle
          have hh0 : h0 = cs := by
            injection hsingle with e1 _
          rw [hh0]
          have hafter : afterLastSep sep cs = none := (afterLastSep_eq_none_iff sep cs).mpr hnot
          rw [hafter]
          simp [jsLast, hc]
        | cons t0 ts =>
          subst ht
          have hmem : sep ∈ cs := by
            by_contra hn
            have := splitChar_of_not_mem sep cs hn
            rw [hr] at this
            injection this with _ e2
            cases e2
          obtain ⟨u, hu⟩ : ∃ u, afterLastSep sep cs = some u := by
            cases hcs : afterLastSep sep cs with
            | none => exact absurd ((afterLastSep_eq_none_iff sep cs).mp hcs) (by simp [hmem])
            | some u => exact ⟨u, rfl⟩
          have step1 : jsLast ((c :: h0) :: t0 :: ts) = jsLast (t0 :: ts) := rfl
          have step2 : jsLast (h0 :: t0 :: ts) = jsLast (t0 :: ts) := rfl
          rw [step1, ← step2, ← hr, ih, hu]
          simp

/-- Models JavaScript truthy-or on strings: `a || b` where the empty string
is the only falsy string reachable here. -/
def orElseStr (a b : String) : String :=
  if a = "" then b else a

theorem orElseStr_empty (a : String) : orElseStr a "" = a := by
  unfold orElseStr
  split
  · rename_i h
    exact h.symm
  · rfl

/-- Models JavaScript `s.trim()` at the character level. -/
def jsTrim (s : String) : String :=
  String.mk (((s.data.dropWhile (·.isWhitespace)).reverse.dropWhile (·.isWhitespace)).reverse)

/-- Models JavaScript `s.toLowerCase()` at the character level. -/
def jsLower (s : String) : String :=
  String.mk (s.data.map Char.toLower)

/-- Character-list prefix test, used to model JavaScript substring search. -/
def listPrefixOf : List Char → List Char → Bool
  | [], _ => true
  | _ :: _, [] => false
  | a :: as, b :: bs => a == b && listPrefixOf as bs

/-- Models JavaScript `hay.includes(needle)` at the character level. -/
def containsSub : List Char → List Char → Bool
  | needle, [] => needle.isEmpty
  | needle, c :: rest => listPrefixOf needle (c :: rest) || containsSub needle rest

/-- The `'file' | 'folder'` union of the `FileSystemItem.type` field. -/
inductive ItemType
  | file
  | folder
deriving DecidableEq

def itemTypeStr : ItemType → String
  | .file => "file"
  | .folder => "folder"

/-- The `FileSystemItem` interface of `lib/api.ts`.  `dateModified` is epoch
milliseconds. -/
structure FileSystemItem where
  name : String
  path : String
  type : ItemType
  size : Nat
  dateModified : Nat
  description : Option String := none
  tags : Option (List String) := none
  extension : Option String := none
  icon : Option String := none
deriving DecidableEq

/-- The `SearchType` union `'text' | 'image'` of `lib/api.ts`. -/
inductive SearchType
  | text
  | image
deriving DecidableEq

def searchTypeStr : SearchType → String
  | .text => "text"
  | .image => "image"

/-- The `SearchResult` interface of `lib/api.ts`. -/
structure SearchResult where
  query : String
  items : List FileSystemItem
  totalResults : Nat
deriving DecidableEq

/-- Modality of an indexed content record (text or image), from the spec's
IndexRecord data model. -/
inductive Modality
  | text
  | image
deriving DecidableEq

def searchModality : SearchType → Modality
  | .text => .text
  | .image => .image

/-- Modelled from the spec: an IndexRecord of the vector store, owned by the
Python backend (`clarity_api`, not under src/) — "`path`, `content_vector`,
`modality` (text|image), free-form metadata".  The content vector and
metadata play no role in the claims and are omitted. -/
structure IndexRecord where
  path : String
  modality : Modality
deriving DecidableEq

/-- Modelled from the spec: the backend response shape of `SearchText` /
`SearchImage`: "{query, results: [{path, score}], total_results}"; scores and
ranking are not modelled, only which records can appear. -/
structure SearchResponse where
  query : String
  results : List IndexRecord
  total_results : Nat
deriving DecidableEq

/-- Modelled from the spec: the backend text-search route
(`clarity_api.routes`, not under src/).  "`SearchText(query)` … text queries
against text-indexed content … cross-modal matching is out of scope", so the
route answers only with text-modality records of the store. -/
def searchTextRoute (store : List IndexRecord) (q : String) : SearchResponse :=
  let hits := store.filter (fun r => r.modality == Modality.text)
  { query := q, results := hits, total_results := hits.length }

/-- Modelled from the spec: the backend image-search route
(`clarity_api.routes`, not under src/), answering only with image-modality
records of the store. -/
def searchImageRoute (store : List IndexRecord) (q : String) : SearchResponse :=
  let hits := store.filter (fun r => r.modality == Modality.image)
  { query := q, results := hits, total_results := hits.length }

/-- The endpoint selection of `FileExplorerAPI.searchFiles` (lines 289-295):
`'/search-text'` unless the search type is `'image'`. -/
def searchFilesEndpoint (searchType : SearchType) : String :=
  if searchType = SearchType.image then "/search-image" else "/search-text"

/-- One item of the `result.results.map(...)` conversion inside
`FileExplorerAPI.searchFiles` (lines 314-322): name from the last `/` or `\`
segment, the stored path unchanged, type `'file'`, size `0`, date `now`,
extension from `path.split('.').pop() || ''`. -/
def mkSearchItem (searchType : SearchType) (now : Nat) (p : String) : FileSystemItem :=
  { name := orElseStr (String.mk (jsLast (splitChar '/' p.data)))
      (orElseStr (String.mk (jsLast (splitChar '\\' p.data))) p)
    path := p
    type := ItemType.file
    size := 0
    dateModified := now
    extension := some (orElseStr (String.mk (jsLast (splitChar '.' p.data))) "")
    description := some (searchTypeStr searchType ++ " search result") }

/-- Outcome of a JavaScript `fetch` call: resolved with `response.ok`,
resolved with a non-OK status, or rejected (network error / backend down). -/
inductive FetchOutcome
  | ok
  | notOk
  | throws
deriving DecidableEq

/-- The `mockFiles` array of `FileExplorerAPI`, used as fallback search
results when the backend is unreachable. -/
def mockFiles : List FileSystemItem :=
  [ { name := "Documents", path := "C:/Users/User/Documents", type := ItemType.folder,
      size := 0, dateModified := 1705276800000, icon := some "üìÅ" },
    { name := "Downloads", path := "C:/Users/User/Downloads", type := ItemType.folder,
      size := 0, dateModified := 1705708800000, icon := some "üìÅ" },
    { name := "Pictures", path := "C:/Users/User/Pictures", type := ItemType.folder,
      size := 0, dateModified := 1705536000000, icon := some "üìÅ" },
    { name := "Desktop", path := "C:/Users/User/Desktop", type := ItemType.folder,
      size := 0, dateModified := 1705881600000, icon := some "üñ•Ô∏è" },
    { name := "report.docx", path := "C:/Users/User/Documents/report.docx", type := ItemType.file,
      size := 2048576, dateModified := 1705795200000, extension := some "docx", icon := some "üìÑ" },
    { name := "presentation.pptx", path := "C:/Users/User/Documents/presentation.pptx", type := ItemType.file,
      size := 5242880, dateModified := 1705622400000, extension := some "pptx", icon := some "üìä" },
    { name := "image.jpg", path := "C:/Users/User/Pictures/image.jpg", type := ItemType.file,
      size := 1048576, dateModified := 1705449600000, extension := some "jpg", icon := some "üñºÔ∏è" } ]

/-- Models `FileExplorerAPI.searchFiles`.  On a successful fetch the chosen
endpoint's response is converted via `mkSearchItem`; on a non-OK response an
error is thrown, so both `notOk` and `throws` land in the catch block, which
filters `mockFiles` by case-insensitive name containment. -/
def searchFiles (now : Nat) (store : List IndexRecord) (o : FetchOutcome)
    (query : String) (searchType : SearchType) : SearchResult :=
  match o with
  | .ok =>
    let result :=
      match searchType with
      | .image => searchImageRoute store query
      | .text => searchTextRoute store query
    { query := result.query
      items := result.results.map (fun item => mkSearchItem searchType now item.path)
      totalResults := result.total_results }
  | _ =>
    let filteredItems :=
      mockFiles.filter (fun item => containsSub (jsLower query).data (jsLower item.name).data)
    { query := query
      items := filteredItems
      totalResults := filteredItems.length }

/-- Body of the `/rename` request of `FileExplorerAPI.renameItem`. -/
structure RenameReq where
  old_path : String
  new_name : String
deriving DecidableEq

/-- Body of the `/delete` request of `FileExplorerAPI.deleteItem`. -/
structure DeleteReq where
  path : String
deriving DecidableEq

/-- Body of the `/create-folder` request of `FileExplorerAPI.createFolder`. -/
structure CreateFolderReq where
  parent_path : String
  name : String
deriving DecidableEq

/-- Models `FileExplorerAPI.renameItem` (lines 419-448): the request body
carries the '|'-normalized path; `true` on OK, `false` on a non-OK response,
and `true` again when the fetch itself throws ("simulating success"). -/
def renameItem (o : FetchOutcome) (oldPath newName : String) : RenameReq × Bool :=
  let normalizedPath := encodePath oldPath
  (⟨normalizedPath, newName⟩,
    match o with
    | .ok => true
    | .notOk => false
    | .throws => true)

/-- Models `FileExplorerAPI.deleteItem` (lines 368-383): the request body
carries the path as given (no conversion); `response.ok` on a response, and
`true` when the fetch throws ("simulating success"). -/
def deleteItem (o : FetchOutcome) (path : String) : DeleteReq × Bool :=
  (⟨path⟩,
    match o with
    | .ok => true
    | .notOk => false
    | .throws => true)

/-- Models `FileExplorerAPI.createFolder` (lines 350-366): the request body
carries the '|'-normalized parent path; `response.ok` on a response and
`false` when the fetch throws. -/
def createFolder (o : FetchOutcome) (path name : String) : CreateFolderReq × Bool :=
  let parent_path := encodePath path
  (⟨parent_path, name⟩,
    match o with
    | .ok => true
    | .notOk => false
    | .throws => false)

/-- Models `FileExplorerAPI.getDirectoryContents` (lines 281-285): always the
empty list; the right pane is populated from tree data instead. -/
def getDirectoryContents (_path : String) : List FileSystemItem :=
  []

/-- A node of the backend tree snapshot as the frontend consumes it
(`node.name`, `node.path_abs`, `node.is_dir`, `node.size_bytes`,
`node.when_modified`, `node.ext`, `node.id`).  Optional fields model absent
JSON properties. -/
structure TreeNode where
  id : String
  name : String
  path_abs : String
  is_dir : Nat
  size_bytes : Option Nat := none
  when_modified : Option Nat := none
  ext : Option String := none
deriving DecidableEq

/-- The tree snapshot shape the frontend consumes: a flat id-to-node map, an
id-to-ordered-children adjacency map and a root id list.  JavaScript objects
with unique keys are modelled as association lists. -/
structure TreeData where
  nodes : List (String × TreeNode)
  adjacency_list : List (String × List String)
  root_ids : List String
deriving DecidableEq

/-- Models `convertTreeNodeToFileSystemItem` in `FileExplorer.tsx` (lines
34-44).  JavaScript truthiness is kept: `when_modified` equal to `0` falls
back to `new Date()` (the `now` parameter), and an empty `ext` string becomes
`undefined`. -/
def convertTreeNodeToFileSystemItem (now : Nat) (node : TreeNode) : FileSystemItem :=
  { name := node.name
    path := decodePath node.path_abs
    type := if node.is_dir = 1 then ItemType.folder else ItemType.file
    size := node.size_bytes.getD 0
    dateModified :=
      match node.when_modified with
      | some w => if w = 0 then now else w * 1000
      | none => now
    extension :=
      match node.ext with
      | some e => if e = "" then none else some e
      | none => none
    description := some ("Tree item: " ++ node.name) }

/-- The React state of the `FileExplorer` component that the claims touch. -/
structure ExplorerState where
  treeData : Option TreeData := none
  items : List FileSystemItem := []
  currentPath : String := "C:/Users/User"
  currentNodeId : Option String := none
  selectedItems : List String := []
  renamingItem : Option String := none
  loading : Bool := false
  searchResults : Option SearchResult := none
  searchQuery : String := ""
deriving DecidableEq

/-- Models `loadFolderFromTree` in `FileExplorer.tsx` (lines 47-64).  The
early returns (no tree, unknown node id) leave the state unchanged; a child
id that is missing from `nodes` would make the JavaScript conversion throw a
TypeError, modelled as `none`. -/
def loadFolderFromTree (now : Nat) (s : ExplorerState) (nodeId : String) :
    Option ExplorerState :=
  match s.treeData with
  | none => some s
  | some treeData =>
    match treeData.nodes.lookup nodeId with
    | none => some s
    | some node =>
      let childIds : List String := (treeData.adjacency_list.lookup nodeId).getD []
      match childIds.mapM (fun childId => treeData.nodes.lookup childId) with
      | none => none
      | some childNodes =>
        some { s with
          items := childNodes.map (convertTreeNodeToFileSystemItem now)
          currentPath := decodePath node.path_abs
          currentNodeId := some nodeId
          selectedItems := [] }

/-- Models `loadDirectory` in `FileExplorer.tsx` (lines 98-114): the item
list is replaced by `getDirectoryContents` and the selection cleared. -/
def loadDirectory (s : ExplorerState) (path : String) : ExplorerState :=
  { s with
    items := getDirectoryContents path
    selectedItems := []
    loading := false }

/-- The `'name' | 'dateModified' | 'type' | 'size'` sortable columns of
`FileList.tsx`. -/
inductive SortableField
  | name
  | dateModified
  | type
  | size
deriving DecidableEq

inductive SortDir
  | asc
  | desc
deriving DecidableEq

/-- The comparator inside `FileList.sortedItems` (lines 226-245): folders
always first, then the active field (strings lowercased) in the active
direction. -/
def cmpItems (sortField : SortableField) (sortDirection : SortDir)
    (a b : FileSystemItem) : Int :=
  if a.type = ItemType.folder ∧ b.type ≠ ItemType.folder then -1
  else if a.type ≠ ItemType.folder ∧ b.type = ItemType.folder then 1
  else
    let ord : Ordering :=
      match sortField with
      | .name => compare (jsLower a.name) (jsLower b.name)
      | .type => compare (jsLower (itemTypeStr a.type)) (jsLower (itemTypeStr b.type))
      | .size => compare a.size b.size
      | .dateModified => compare a.dateModified b.dateModified
    match ord, sortDirection with
    | .lt, .asc => -1
    | .lt, .desc => 1
    | .gt, .asc => 1
    | .gt, .desc => -1
    | .eq, _ => 0

/-- Stable insertion of an element in front of the first entry it does not
compare after. -/
def insertCmp {α : Type} (le : α → α → Bool) (a : α) : List α → List α
  | [] => [a]
  | b :: bs => if le a b then a :: b :: bs else b :: insertCmp le a bs

/-- A stable comparison sort, the model of JavaScript's (stable)
`Array.prototype.sort`. -/
def stableSort {α : Type} (le : α → α → Bool) : List α → List α
  | [] => []
  | a :: as => insertCmp le a (stableSort le as)

theorem insertCmp_perm {α : Type} (le : α → α → Bool) (a : α) (l : List α) :
    List.Perm (insertCmp le a l) (a :: l) := by
  induction l with
  | nil => exact List.Perm.refl _
  | cons b bs ih =>
    unfold insertCmp
    by_cases h : le a b = true
    · rw [if_pos h]
    · rw [if_neg h]
      exact ((ih.cons b).trans (List.Perm.swap a b bs))

theorem stableSort_perm {α : Type} (le : α → α → Bool) (l : List α) :
    List.Perm (stableSort le l) l := by
  induction l with
  | nil => exact List.Perm.refl _
  | cons a as ih =>
    exact (insertCmp_perm le a (stableSort le as)).trans (ih.cons a)

/-- Models `FileList.sortedItems` (lines 225-246): the displayed order of the
right pane, a stable sort of the incoming items under `cmpItems`. -/
def sortedItems (items : List FileSystemItem) (sortField : SortableField)
    (sortDirection : SortDir) : List FileSystemItem :=
  stableSort (fun a b => decide (cmpItems sortField sortDirection a b ≤ 0)) items

/-- A backend HTTP request placed by the renderer. -/
inductive BackendRequest
  | rename (req : RenameReq)
  | deleteReq (req : DeleteReq)
  | createFolderReq (req : CreateFolderReq)
  | refresh
deriving DecidableEq

/-- An externally observable effect of a UI handler.  Backend requests are
the only way the renderer can cause file-system side effects. -/
inductive Effect
  | request (r : BackendRequest)
  | toast (title : String)
  | openSystem (path : String)
  | openFile (path : String)
deriving DecidableEq

def Effect.isRequest : Effect → Bool
  | .request _ => true
  | _ => false

/-- The body of `handleRename` after the precondition guards (lines 341-380
of `FileExplorer.tsx`): the rename request is sent; on success the tree is
refreshed (`refreshResp` is the `/refresh` response, `none` when it fails)
and the view reloaded.  The reload goes through the stale React closure, so
`loadFolderFromTree` still reads the pre-refresh `treeData`; an exception in
the reload is caught by the surrounding try/catch ("Error" toast). -/
def handleRenameBody (now : Nat) (o : FetchOutcome) (refreshResp : Option TreeData)
    (s : ExplorerState) (oldPath newName : String) : ExplorerState × List Effect :=
  let call := renameItem o oldPath newName
  let renameEff := Effect.request (BackendRequest.rename call.1)
  let s1 := { s with loading := true }
  if call.2 then
    let s2 :=
      match refreshResp with
      | some newTree => { s1 with treeData := some newTree }
      | none => s1
    match s.currentNodeId, s.treeData with
    | some nid, some _ =>
      (match loadFolderFromTree now { s2 with treeData := s.treeData } nid with
       | some s3 =>
         ({ s3 with treeData := s2.treeData, loading := false, renamingItem := none },
          [renameEff, Effect.request BackendRequest.refresh, Effect.toast "Success"])
       | none =>
         ({ s2 with loading := false, renamingItem := none },
          [renameEff, Effect.request BackendRequest.refresh, Effect.toast "Error"]))
    | _, _ =>
      ({ loadDirectory s2 s.currentPath with loading := false, renamingItem := none },
       [renameEff, Effect.request BackendRequest.refresh, Effect.toast "Success"])
  else
    ({ s1 with loading := false, renamingItem := none },
     [renameEff, Effect.toast "Error"])

/-- Models `handleRename` in `FileExplorer.tsx` (lines 319-381): empty new
name returns silently; with a loaded tree, an old path whose '|'-encoding
matches no node's `path_abs` is rejected with the "Not indexed" toast before
any backend call; otherwise the rename proceeds. -/
def handleRename (now : Nat) (o : FetchOutcome) (refreshResp : Option TreeData)
    (s : ExplorerState) (oldPath newName : String) : ExplorerState × List Effect :=
  if jsTrim newName = "" then
    ({ s with renamingItem := none }, [])
  else
    match s.treeData with
    | some treeData =>
      match treeData.nodes.find? (fun e => e.2.path_abs == encodePath oldPath) with
      | none => ({ s with renamingItem := none }, [Effect.toast "Not indexed"])
      | some _ => handleRenameBody now o refreshResp s oldPath newName
    | none => handleRenameBody now o refreshResp s oldPath newName

/-- Availability of the preload bridges `window.clarity.openInSystem` and
`window.electronAPI.openFile`. -/
structure Bridges where
  clarity : Bool
  electronAPI : Bool
deriving DecidableEq

/-- Models `handleSearch` in `FileExplorer.tsx` (lines 189-234): blank
queries are ignored; otherwise the search runs, its results replace the
view, and when at least one item came back the first result's path is handed
to `window.clarity.openInSystem` (or, failing that, to
`window.electronAPI.openFile`; with neither bridge only a console log
happens). -/
def handleSearch (bridges : Bridges) (now : Nat) (store : List IndexRecord)
    (o : FetchOutcome) (s : ExplorerState) (query : String) (searchType : SearchType) :
    ExplorerState × List Effect :=
  if jsTrim query = "" then (s, [])
  else
    let results := searchFiles now store o query searchType
    let s1 := { s with
      searchResults := some results
      searchQuery := query
      selectedItems := []
      loading := false }
    match results.items with
    | [] => (s1, [Effect.toast "No Results"])
    | firstResult :: _ =>
      let openEffects :=
        if bridges.clarity then [Effect.openSystem firstResult.path]
        else if bridges.electronAPI then [Effect.openFile firstResult.path]
        else []
      (s1, Effect.toast "Search Complete" :: openEffects)

/-! Concrete snapshot used to evaluate the definitions on explicit inputs. -/

def exNodeRoot : TreeNode :=
  { id := "root", name := "r", path_abs := "C:|r", is_dir := 1 }

def exNodeB : TreeNode :=
  { id := "nb", name := "b", path_abs := "C:|r|b", is_dir := 0,
    size_bytes := some 1, when_modified := some 5, ext := some "txt" }

def exNodeA : TreeNode :=
  { id := "na", name := "a", path_abs := "C:|r|a", is_dir := 0,
    size_bytes := some 2, when_modified := some 6, ext := some "txt" }

/-- A small loaded snapshot: a root directory whose adjacency list orders its
two file children as b before a. -/
def exTree : TreeData :=
  { nodes := [("root", exNodeRoot), ("nb", exNodeB), ("na", exNodeA)]
    adjacency_list := [("root", ["nb", "na"])]
    root_ids := ["root"] }

def exState : ExplorerState :=
  { treeData := some exTree }

def exInitState : ExplorerState :=
  {}

def exStore : List IndexRecord :=
  [{ path := "C:|r|notes.txt", modality := Modality.text }]

/-! Claim theorems. -/

/-- C1: for every rename request issued while a tree snapshot is loaded, if
the '|'-encoded old path equals no node's `path_abs`, the rename is rejected:
no backend request is placed (backend requests being the renderer's only
avenue to file-system side effects) and the tree data is left unchanged. -/
theorem claim_C1_rename_not_indexed (now : Nat) (o : FetchOutcome)
    (refreshResp : Option TreeData) (s : ExplorerState) (t : TreeData)
    (oldPath newName : String)
    (hload : s.treeData = some t)
    (habsent : ∀ e ∈ t.nodes, e.2.path_abs ≠ encodePath oldPath) :
    (handleRename now o refreshResp s oldPath newName).1.treeData = some t ∧
    (handleRename now o refreshResp s oldPath newName).1.items = s.items ∧
    ∀ eff ∈ (handleRename now o refreshResp s oldPath newName).2,
      eff.isRequest = false := by
  have hfind : t.nodes.find? (fun e => e.2.path_abs == encodePath oldPath) = none := by
    rw [List.find?_eq_none]
    intro x hx
    simpa using habsent x hx
  have hres : handleRename now o refreshResp s oldPath newName =
      if jsTrim newName = "" then ({ s with renamingItem := none }, [])
      else ({ s with renamingItem := none }, [Effect.toast "Not indexed"]) := by
    unfold handleRename
    by_cases htrim : jsTrim newName = ""
    · rw [if_pos htrim, if_pos htrim]
    · rw [if_neg htrim, if_neg htrim, hload]
      simp only [hfind]
  by_cases htrim : jsTrim newName = ""
  · rw [hres, if_pos htrim]
    exact ⟨hload, rfl, fun eff h => by cases h⟩
  · rw [hres, if_neg htrim]
    refine ⟨hload, rfl, ?_⟩
    intro eff h
    rw [List.mem_singleton] at h
    subst h
    rfl

/-- Witness for C1 at a concrete snapshot and path. -/
theorem claim_C1_witness :
    (handleRename 0 FetchOutcome.ok none exState "C:/zzz" "w").1.treeData = some exTree ∧
    (handleRename 0 FetchOutcome.ok none exState "C:/zzz" "w").1.items = exState.items ∧
    ∀ eff ∈ (handleRename 0 FetchOutcome.ok none exState "C:/zzz" "w").2,
      eff.isRequest = false :=
  claim_C1_rename_not_indexed 0 FetchOutcome.ok none exState exTree "C:/zzz" "w"
    rfl (by decide)

/-- C2: decoding the encoding is the identity on every hierarchical path none
of whose components contains the delimiter character '|'. -/
theorem claim_C2_roundtrip (p : String) (h : ∀ c ∈ p.data, c ≠ '|') :
    decodePath (encodePath p) = p :=
  decodePath_encodePath p h

/-- Witness for C2 at a concrete path. -/
theorem claim_C2_witness :
    (∀ c ∈ ("C:/Users/a.txt" : String).data, c ≠ '|') ∧
    decodePath (encodePath "C:/Users/a.txt") = "C:/Users/a.txt" :=
  ⟨by decide, claim_C2_roundtrip "C:/Users/a.txt" (by decide)⟩

/-- Counterexample to C3: the encoding is not injective on all hierarchical
paths — "a/b" and "a|b" are distinct but encode identically, and the
delimiter-colliding component "a|b" is passed through unchanged rather than
rejected or escaped. -/
theorem claim_C3_counterexample :
    encodePath "a/b" = encodePath "a|b" ∧ ("a/b" : String) ≠ "a|b" ∧
    encodePath "a|b" = "a|b" := by decide

/-- C3 (amended): the encoding is injective on hierarchical paths that do not
contain the delimiter character '|'. -/
theorem claim_C3_amended (p q : String)
    (hp : ∀ c ∈ p.data, c ≠ '|') (hq : ∀ c ∈ q.data, c ≠ '|')
    (h : encodePath p = encodePath q) : p = q := by
  have hp2 := decodePath_encodePath p hp
  rw [← hp2, h, decodePath_encodePath q hq]

/-- Witness for the amended C3 at concrete paths. -/
theorem claim_C3_witness :
    (∀ c ∈ ("x/y" : String).data, c ≠ '|') ∧ ("x/y" : String) = "x/y" :=
  ⟨by decide, claim_C3_amended "x/y" "x/y" (by decide) (by decide) rfl⟩

/-- Counterexample to C4: the displayed order of the right pane is not the
adjacency order — `FileList.sortedItems` re-sorts the loaded child items (by
name ascending here), so a snapshot whose adjacency lists b before a is
displayed as a before b. -/
theorem claim_C4_counterexample :
    (loadFolderFromTree 0 exState "root").isSome = true ∧
    sortedItems ((loadFolderFromTree 0 exState "root").getD exState).items
        SortableField.name SortDir.asc ≠
      ((loadFolderFromTree 0 exState "root").getD exState).items := by decide

/-- C4 (amended): the children loaded for a directory node are exactly the
nodes listed under its id in the adjacency list, in the adjacency list's
order; a node id absent from the adjacency list yields an empty child
sequence, not an error; the displayed list is a re-sorted permutation of
those children (folders first, then the active sort column). -/
theorem claim_C4_amended (now : Nat) (s : ExplorerState) (t : TreeData)
    (nodeId : String) (node : TreeNode) (childNodes : List TreeNode)
    (h1 : s.treeData = some t)
    (h2 : t.nodes.lookup nodeId = some node)
    (h3 : ((t.adjacency_list.lookup nodeId).getD []).mapM
        (fun childId => t.nodes.lookup childId) = some childNodes) :
    ∃ s', loadFolderFromTree now s nodeId = some s' ∧
      s'.items = childNodes.map (convertTreeNodeToFileSystemItem now) ∧
      (t.adjacency_list.lookup nodeId = none → s'.items = []) ∧
      ∀ f d, List.Perm (sortedItems s'.items f d) s'.items := by
  have hstep : loadFolderFromTree now s nodeId =
      some { s with
        items := childNodes.map (convertTreeNodeToFileSystemItem now)
        currentPath := decodePath node.path_abs
        currentNodeId := some nodeId
        selectedItems := [] } := by
    unfold loadFolderFromTree
    simp only [h1, h2, h3]
  refine ⟨_, hstep, rfl, ?_, ?_⟩
  · intro hnone
    rw [hnone] at h3
    have h4 : some ([] : List TreeNode) = some childNodes := h3
    injection h4 with h5
    simp [← h5]
  · intro f d
    simpa [sortedItems] using
      stableSort_perm (fun a b => decide (cmpItems f d a b ≤ 0))
        (childNodes.map (convertTreeNodeToFileSystemItem now))

/-- Witness for the amended C4 at the concrete snapshot. -/
theorem claim_C4_witness :
    ∃ s', loadFolderFromTree 0 exState "root" = some s' ∧
      s'.items = [exNodeB, exNodeA].map (convertTreeNodeToFileSystemItem 0) ∧
      (exTree.adjacency_list.lookup "root" = none → s'.items = []) ∧
      ∀ f d, List.Perm (sortedItems s'.items f d) s'.items :=
  claim_C4_amended 0 exState exTree "root" exNodeRoot [exNodeB, exNodeA]
    rfl (by decide) (by decide)

/-- Counterexample to C5: the delete operation sends the path unconverted —
the request body still contains '/' characters instead of the '|'-encoded
form. -/
theorem claim_C5_counterexample :
    (deleteItem FetchOutcome.ok "C:/Users/f.txt").1.path ≠ encodePath "C:/Users/f.txt" ∧
    '/' ∈ (deleteItem FetchOutcome.ok "C:/Users/f.txt").1.path.data := by decide

/-- C5 (amended): create-folder and rename convert their path to the flat
'|' encoding before placing it in the request body; delete places the path
in the body unchanged. -/
theorem claim_C5_amended (o : FetchOutcome) (path name : String) :
    (createFolder o path name).1.parent_path = encodePath path ∧
    (renameItem o path name).1.old_path = encodePath path ∧
    (deleteItem o path).1.path = path :=
  ⟨rfl, rfl, rfl⟩

/-- Counterexample to C6: when the underlying fetch throws, both delete and
rename report success to their caller. -/
theorem claim_C6_counterexample :
    (deleteItem FetchOutcome.throws "C:/x").2 = true ∧
    (renameItem FetchOutcome.throws "C:/x" "y").2 = true := by decide

/-- C6 (amended): on a non-OK HTTP response delete and rename report
failure; when the request itself throws, both report (simulated) success. -/
theorem claim_C6_amended (path name : String) :
    (deleteItem FetchOutcome.notOk path).2 = false ∧
    (renameItem FetchOutcome.notOk path name).2 = false ∧
    (deleteItem FetchOutcome.throws path).2 = true ∧
    (renameItem FetchOutcome.throws path name).2 = true :=
  ⟨rfl, rfl, rfl, rfl⟩

/-- C7: text searches are dispatched to the text endpoint and image searches
to the image endpoint, and every item a successful backend search returns
stems from a store record of the query's own modality. -/
theorem claim_C7_modality (now : Nat) (store : List IndexRecord) (q : String)
    (ty : SearchType) :
    searchFilesEndpoint SearchType.text = "/search-text" ∧
    searchFilesEndpoint SearchType.image = "/search-image" ∧
    ∀ it ∈ (searchFiles now store FetchOutcome.ok q ty).items,
      ∃ r ∈ store, r.modality = searchModality ty ∧ it.path = r.path := by
  refine ⟨rfl, rfl, ?_⟩
  intro it hit
  cases ty with
  | text =>
    simp only [searchFiles, searchTextRoute, List.mem_map] at hit
    obtain ⟨r, hr, rfl⟩ := hit
    rw [List.mem_filter] at hr
    exact ⟨r, hr.1, by simpa using hr.2, rfl⟩
  | image =>
    simp only [searchFiles, searchImageRoute, List.mem_map] at hit
    obtain ⟨r, hr, rfl⟩ := hit
    rw [List.mem_filter] at hr
    exact ⟨r, hr.1, by simpa using hr.2, rfl⟩

/-- Witness for C7 at a concrete store and query. -/
theorem claim_C7_witness :
    mkSearchItem SearchType.text 0 "C:|r|notes.txt" ∈
      (searchFiles 0 exStore FetchOutcome.ok "q" SearchType.text).items ∧
    ∃ r ∈ exStore, r.modality = searchModality SearchType.text ∧
      (mkSearchItem SearchType.text 0 "C:|r|notes.txt").path = r.path :=
  ⟨by decide,
    (claim_C7_modality 0 exStore "q" SearchType.text).2.2 _ (by decide)⟩

/-- C8: `getDirectoryContents` returns the empty list on every input, so the
right-pane file list is never populated from a backend directory listing. -/
theorem claim_C8_empty_listing (path : String) (s : ExplorerState) :
    getDirectoryContents path = [] ∧ (loadDirectory s path).items = [] :=
  ⟨rfl, rfl⟩

/-- C9: after every search with a non-blank query that returns at least one
item, when a system-open bridge is available the handler emits an open
effect carrying the first (top-ranked) result's path. -/
theorem claim_C9_opens_first (bridges : Bridges) (now : Nat)
    (store : List IndexRecord) (o : FetchOutcome) (s : ExplorerState)
    (query : String) (ty : SearchType) (firstResult : FileSystemItem)
    (rest : List FileSystemItem)
    (hq : jsTrim query ≠ "")
    (hb : bridges.clarity = true ∨ bridges.electronAPI = true)
    (hitems : (searchFiles now store o query ty).items = firstResult :: rest) :
    Effect.openSystem firstResult.path ∈ (handleSearch bridges now store o s query ty).2 ∨
    Effect.openFile firstResult.path ∈ (handleSearch bridges now store o s query ty).2 := by
  unfold handleSearch
  rw [if_neg hq]
  simp only [hitems]
  cases hcl : bridges.clarity with
  | true =>
    left
    simp [hcl]
  | false =>
    have hel : bridges.electronAPI = true := by
      rcases hb with h | h
      · rw [hcl] at h
        cases h
      · exact h
    right
    simp [hcl, hel]

/-- Witness for C9 at a concrete store, query and bridge set. -/
theorem claim_C9_witness :
    Effect.openSystem (mkSearchItem SearchType.text 0 "C:|r|notes.txt").path ∈
      (handleSearch ⟨true, true⟩ 0 exStore FetchOutcome.ok exInitState "sun" SearchType.text).2 ∨
    Effect.openFile (mkSearchItem SearchType.text 0 "C:|r|notes.txt").path ∈
      (handleSearch ⟨true, true⟩ 0 exStore FetchOutcome.ok exInitState "sun" SearchType.text).2 :=
  claim_C9_opens_first ⟨true, true⟩ 0 exStore FetchOutcome.ok exInitState "sun"
    SearchType.text (mkSearchItem SearchType.text 0 "C:|r|notes.txt") []
    (by decide) (Or.inl rfl) (by decide)

/-- Counterexample to C10: for a stored path without any '.', the
constructed extension is the whole path, not the (non-existent) text after a
last '.'. -/
theorem claim_C10_counterexample :
    (mkSearchItem SearchType.text 0 "README").extension = some "README" ∧
    textAfterLastDot "README" = "" ∧ ("README" : String) ≠ "" := by decide

/-- C10 (amended): every item built from a backend search response has type
'file' and size 0, and its extension is the last '.'-separated segment of
the stored path — the text after the last '.' when the path contains one,
and the whole path otherwise. -/
theorem claim_C10_amended (ty : SearchType) (now : Nat) (p : String) :
    (mkSearchItem ty now p).type = ItemType.file ∧
    (mkSearchItem ty now p).size = 0 ∧
    ('.' ∈ p.data → (mkSearchItem ty now p).extension = some (textAfterLastDot p)) ∧
    ('.' ∉ p.data → (mkSearchItem ty now p).extension = some p) := by
  have hext : (mkSearchItem ty now p).extension =
      some (String.mk (jsLast (splitChar '.' p.data))) := by
    simp [mkSearchItem, orElseStr_empty]
  refine ⟨rfl, rfl, ?_, ?_⟩
  · intro hdot
    obtain ⟨u, hu⟩ : ∃ u, afterLastSep '.' p.data = some u := by
      cases hcs : afterLastSep '.' p.data with
      | none => exact absurd ((afterLastSep_eq_none_iff _ _).mp hcs) (by simp [hdot])
      | some u => exact ⟨u, rfl⟩
    rw [hext, jsLast_splitChar, hu]
    unfold textAfterLastDot
    rw [hu]
    rfl
  · intro hnodot
    have hafter : afterLastSep '.' p.data = none :=
      (afterLastSep_eq_none_iff _ _).mpr hnodot
    rw [hext, jsLast_splitChar, hafter]
    rfl

/-- Witness for the amended C10 at a concrete dotted path. -/
theorem claim_C10_witness :
    ('.' ∈ ("a.txt" : String).data ∧
      (mkSearchItem SearchType.text 0 "a.txt").extension =
        some (textAfterLastDot "a.txt")) ∧
    (mkSearchItem SearchType.text 0 "a.txt").type = ItemType.file :=
  ⟨⟨by decide, (claim_C10_amended SearchType.text 0 "a.txt").2.2.1 (by decide)⟩,
    (claim_C10_amended SearchType.text 0 "a.txt").1⟩

end Clarity
